import Mathlib

/-!
Verification of the parsing-and-indexing subsystem of the `netdb` package:
line-format parsers for protocols(5), services(5) and ethertypes files,
the multi-key index structures with their merge/override algorithm, and
the package-level lookup accessors.

The Go code is embedded shallowly:

* Go strings are `String`, manipulated through their `List Char` data;
  `strings.TrimSpace`, `strings.SplitN(s, "#", 2)`, `strings.Fields` and
  `strings.Split(s, "/")` are re-implemented character by character.
* `strconv.ParseUint(s, base, bits)` becomes `parseUint base bits`, which
  returns `none` exactly when Go returns a non-nil error (empty string,
  invalid digit, or value not fitting in `bits` bits).
* Go maps (`map[K]*V`) become `GoMap K V`, an inductive with an explicit
  `nil` state (Go's nil map) and an association-list state; records are
  immutable after creation, so the `*V` pointers are modelled by values.
* `bufio.Scanner` over an `io.Reader` becomes `InStream`: the list of
  scanned lines plus a flag telling whether `scanner.Err()` reports a
  stream error after the last line.
* Fallible functions returning `(xs, err)` become `Option`-valued
  functions (`none` = non-nil error, in which case Go returns a nil
  slice), and `os.Open` in the loaders is modelled by an
  `Option InStream` argument (`none` = the file cannot be opened).
-/

/-- Whitespace as recognized by Go's `strings.TrimSpace`/`strings.Fields`
on ASCII input (`unicode.IsSpace`). -/
def isSpace (c : Char) : Bool :=
  c = ' ' || c = '\t' || c = '\n' || c = '\x0b' || c = '\x0c' || c = '\r'

/-- Leading-whitespace trim on character lists. -/
def ltrim (l : List Char) : List Char := l.dropWhile isSpace

/-- Trailing-whitespace trim on character lists. -/
def rtrim (l : List Char) : List Char := (l.reverse.dropWhile isSpace).reverse

/-- `strings.TrimSpace` on character lists. -/
def trimCh (l : List Char) : List Char := ltrim (rtrim l)

/-- `strings.SplitN(s, "#", 2)`: the text before the first `'#'`, and the
text after it (`none` when the line holds no `'#'`). -/
def splitHash : List Char → List Char × Option (List Char)
  | [] => ([], none)
  | c :: cs =>
    if c = '#' then ([], some cs)
    else
      let r := splitHash cs
      (c :: r.1, r.2)

/-- `strings.Split(s, "/")`: split at every `'/'`, keeping empty parts. -/
def splitSlash : List Char → List (List Char)
  | [] => [[]]
  | c :: cs =>
    if c = '/' then [] :: splitSlash cs
    else
      match splitSlash cs with
      | [] => [[c]]
      | t :: ts => (c :: t) :: ts

/-- Split a character list at every whitespace character, keeping the
(possibly empty) chunks between them. -/
def splitWs (l : List Char) : List (List Char) :=
  l.foldr
    (fun c acc =>
      if isSpace c then [] :: acc
      else
        match acc with
        | [] => [[c]]
        | t :: ts => (c :: t) :: ts)
    [[]]

/-- `strings.Fields`: maximal runs of non-whitespace characters. -/
def fieldsCh (l : List Char) : List (List Char) :=
  (splitWs l).filter (fun t => !t.isEmpty)

/-- The numeric value of a digit character under the given base, mirroring
the digit recognition of `strconv.ParseUint` (`none` for an invalid digit). -/
def digitVal (base : Nat) (c : Char) : Option Nat :=
  let v : Option Nat :=
    if '0' ≤ c ∧ c ≤ '9' then some (c.toNat - '0'.toNat)
    else if 'a' ≤ c ∧ c ≤ 'z' then some (c.toNat - 'a'.toNat + 10)
    else if 'A' ≤ c ∧ c ≤ 'Z' then some (c.toNat - 'A'.toNat + 10)
    else none
  match v with
  | some d => if d < base then some d else none
  | none => none

/-- `strconv.ParseUint(s, base, bits)`; `none` exactly when Go returns a
non-nil error: empty input, an invalid digit, or a value exceeding
`2^bits - 1` (Go's range error also carries a non-nil error). -/
def parseUint (base bits : Nat) (cs : List Char) : Option Nat :=
  if cs.isEmpty then none
  else
    (cs.foldl
      (fun acc c => acc.bind fun n => (digitVal base c).map fun d => n * base + d)
      (some 0)).bind
      fun n => if n < 2 ^ bits then some n else none

/-- First-match lookup in an association list (newest entries are at the
front, see `GoMap.insert`). -/
def alookup {K V : Type} [DecidableEq K] (k : K) : List (K × V) → Option V
  | [] => none
  | (k', v) :: es => if k = k' then some v else alookup k es

/-- A Go map: either the nil map (the zero value of a map type) or an
allocated map, represented as an association list whose newest binding for
a key comes first. -/
inductive GoMap (K V : Type) where
  | nil : GoMap K V
  | alloc : List (K × V) → GoMap K V
deriving DecidableEq

/-- Go map indexing `m[k]` (`none` = the key is absent; indexing a nil map
is legal in Go and also yields the zero value). -/
def GoMap.find {K V : Type} [DecidableEq K] : GoMap K V → K → Option V
  | .nil, _ => none
  | .alloc es, k => alookup k es

/-- Go map assignment `m[k] = v`. (On a nil map Go panics; the modelled
code only ever assigns into allocated maps.) -/
def GoMap.insert {K V : Type} [DecidableEq K] : GoMap K V → K → V → GoMap K V
  | .nil, k, v => .alloc [(k, v)]
  | .alloc es, k, v => .alloc ((k, v) :: es)

/-- `m == nil`, the check used by the package-level lazy initializers. -/
def GoMap.isNil {K V : Type} : GoMap K V → Bool
  | .nil => true
  | .alloc _ => false

/-- `for k, v := range src { dst[k] = v }`: every (logical) entry of `src`
is assigned into `dst`. Entries are replayed oldest-first so that the
newest binding of `src` ends up in front; the result does not depend on
Go's unspecified map iteration order. -/
def GoMap.mergeFrom {K V : Type} [DecidableEq K] (dst : GoMap K V) : GoMap K V → GoMap K V
  | .nil => dst
  | .alloc es => es.foldr (fun kv d => d.insert kv.1 kv.2) dst

/-- `Protocol` (protocol.go): a network protocol record. -/
structure Protocol where
  Name : String
  Number : Nat
  Aliases : List String
deriving DecidableEq

/-- `ProtocolIndex` (protocol.go): protocols indexed by name/alias and by
number. -/
structure ProtocolIndex where
  Names : GoMap String Protocol
  Numbers : GoMap Nat Protocol
deriving DecidableEq

/-- `Service` (service.go): a network service record. The Go field
`Protocol *Protocol` (nil when unresolved) is modelled by an `Option`. -/
structure Service where
  Name : String
  Port : Int
  ProtocolName : String
  Protocol : Option Protocol
  Aliases : List String
deriving DecidableEq

/-- `ServiceProtocol` (service.go): a Service name-index key. -/
structure ServiceProtocol where
  Name : String
  Protocol : String
deriving DecidableEq

/-- `ServicePort` (service.go): a Service port-index key. -/
structure ServicePort where
  Port : Int
  Protocol : String
deriving DecidableEq

/-- `ServiceIndex` (service.go): services indexed by (name, protocol) and
by (port, protocol). -/
structure ServiceIndex where
  Names : GoMap ServiceProtocol Service
  Ports : GoMap ServicePort Service
deriving DecidableEq

/-- `EtherType` (ethertype.go): an Ethernet frame type record. -/
structure EtherType where
  Name : String
  Number : Nat
  Aliases : List String
  Comment : String
deriving DecidableEq

/-- `EtherTypeIndex` (ethertype.go): EtherTypes indexed by name/alias and
by number. -/
structure EtherTypeIndex where
  Names : GoMap String EtherType
  Numbers : GoMap Nat EtherType
deriving DecidableEq

/-- The token list of a protocols(5)/services(5) line, as computed by both
parsers: `strings.Fields(strings.SplitN(strings.TrimSpace(text), "#", 2)[0])`. -/
def lineFields (line : String) : List String :=
  (fieldsCh (splitHash (trimCh line.data)).1).map String.mk

/-- A `bufio.Scanner` source: the lines the scanner yields, plus whether
`scanner.Err()` reports a stream error once the lines are exhausted. -/
structure InStream where
  lines : List String
  fails : Bool
deriving DecidableEq

/-- The body of the `range` loop of `ProtocolIndex.Merge` for one record:
index it under its canonical name, under every alias, and under its
number, overwriting whatever was there. -/
def ProtocolIndex.mergeOne (i : ProtocolIndex) (proto : Protocol) : ProtocolIndex :=
  { Names := proto.Aliases.foldl (fun m aname => m.insert aname proto)
      (i.Names.insert proto.Name proto),
    Numbers := i.Numbers.insert proto.Number proto }

/-- `(*ProtocolIndex).Merge` (protocol.go): merge a record list into the
index in input order. -/
def ProtocolIndex.Merge (i : ProtocolIndex) (protos : List Protocol) : ProtocolIndex :=
  protos.foldl ProtocolIndex.mergeOne i

/-- `NewProtocolIndex` (protocol.go): allocate both maps empty, then merge
the given records. -/
def NewProtocolIndex (protos : List Protocol) : ProtocolIndex :=
  ProtocolIndex.Merge { Names := .alloc [], Numbers := .alloc [] } protos

/-- `(*ProtocolIndex).MergeIndex` (protocol.go): assign every entry of the
other index's two maps into the receiver. -/
def ProtocolIndex.MergeIndex (i pi : ProtocolIndex) : ProtocolIndex :=
  { Names := i.Names.mergeFrom pi.Names, Numbers := i.Numbers.mergeFrom pi.Numbers }

/-- The scanning loop of `ParseProtocols`, one line at a time; the scanner
error is checked after the lines run out. -/
def parseProtocolLines (e : Bool) : List String → Option (List Protocol)
  | [] => if e then none else some []
  | line :: rest =>
    match lineFields line with
    | name :: numTok :: aliases =>
      match parseUint 10 8 numTok.data with
      | none => none
      | some n =>
        (parseProtocolLines e rest).map fun ps => ⟨name, n, aliases⟩ :: ps
    | _ => parseProtocolLines e rest

/-- `ParseProtocols` (protocol.go). -/
def ParseProtocols (r : InStream) : Option (List Protocol) :=
  parseProtocolLines r.fails r.lines

/-- `LoadProtocols` (protocol.go); `os.Open` is modelled by the
`Option InStream` argument, and the returned `Bool` is `true` exactly when
Go returns a non-nil error. -/
def LoadProtocols (file : Option InStream) : ProtocolIndex × Bool :=
  match file with
  | none => (NewProtocolIndex [], true)
  | some r =>
    match ParseProtocols r with
    | none => (NewProtocolIndex [], true)
    | some protos => (NewProtocolIndex protos, false)

/-- `ProtocolByName` (protocol.go). The process-wide `Protocols` variable
is passed in and returned explicitly; `builtin` stands for the generated
`BuiltinProtocols` table, which is not part of the analysed sources.
Modelled from the spec: the builtin dataset is an inert generated record
list, so it is an arbitrary parameter here. -/
def ProtocolByName (builtin : List Protocol) (g : ProtocolIndex) (name : String) :
    ProtocolIndex × Option Protocol :=
  let g := if g.Numbers.isNil then NewProtocolIndex builtin else g
  (g, g.Names.find name)

/-- `ProtocolByNumber` (protocol.go), with the same state passing as
`ProtocolByName`. -/
def ProtocolByNumber (builtin : List Protocol) (g : ProtocolIndex) (number : Nat) :
    ProtocolIndex × Option Protocol :=
  let g := if g.Numbers.isNil then NewProtocolIndex builtin else g
  (g, g.Numbers.find number)

/-- The body of the `range` loop of `ServiceIndex.Merge` for one record:
protocol-less name/alias/port keys are written only when absent, the
name+protocol, alias+protocol and port+protocol keys are always written. -/
def ServiceIndex.mergeOne (i : ServiceIndex) (service : Service) : ServiceIndex :=
  let ns0 := if (i.Names.find ⟨service.Name, ""⟩).isSome then i.Names
    else i.Names.insert ⟨service.Name, ""⟩ service
  let ns1 := ns0.insert ⟨service.Name, service.ProtocolName⟩ service
  let ns2 := service.Aliases.foldl
    (fun m aname =>
      let m0 := if (m.find ⟨aname, ""⟩).isSome then m else m.insert ⟨aname, ""⟩ service
      m0.insert ⟨aname, service.ProtocolName⟩ service)
    ns1
  let ps0 := if (i.Ports.find ⟨service.Port, ""⟩).isSome then i.Ports
    else i.Ports.insert ⟨service.Port, ""⟩ service
  let ps1 := ps0.insert ⟨service.Port, service.ProtocolName⟩ service
  { Names := ns2, Ports := ps1 }

/-- `(*ServiceIndex).Merge` (service.go): merge a record list into the
index in input order. -/
def ServiceIndex.Merge (i : ServiceIndex) (services : List Service) : ServiceIndex :=
  services.foldl ServiceIndex.mergeOne i

/-- `NewServiceIndex` (service.go). -/
def NewServiceIndex (services : List Service) : ServiceIndex :=
  ServiceIndex.Merge { Names := .alloc [], Ports := .alloc [] } services

/-- `(*ServiceIndex).MergeIndex` (service.go). -/
def ServiceIndex.MergeIndex (i si : ServiceIndex) : ServiceIndex :=
  { Names := i.Names.mergeFrom si.Names, Ports := i.Ports.mergeFrom si.Ports }

/-- `(*ServiceIndex).ByName` (service.go). -/
def ServiceIndex.ByName (i : ServiceIndex) (name protocol : String) : Option Service :=
  i.Names.find ⟨name, protocol⟩

/-- `(*ServiceIndex).ByPort` (service.go). -/
def ServiceIndex.ByPort (i : ServiceIndex) (port : Int) (protocol : String) : Option Service :=
  i.Ports.find ⟨port, protocol⟩

/-- The scanning loop of `ParseServices`, one line at a time: malformed
lines (wrong token count, a second token that does not split on `/` into
two parts, an unparsable port, an unknown protocol) are skipped. -/
def parseServiceLines (p : ProtocolIndex) (e : Bool) : List String → Option (List Service)
  | [] => if e then none else some []
  | line :: rest =>
    match lineFields line with
    | name :: pp :: aliases =>
      match splitSlash pp.data with
      | [portTok, protoTok] =>
        match parseUint 10 16 portTok with
        | none => parseServiceLines p e rest
        | some port =>
          match p.Names.find (String.mk protoTok) with
          | none => parseServiceLines p e rest
          | some proto =>
            (parseServiceLines p e rest).map fun ss =>
              ⟨name, (port : Int), String.mk protoTok, some proto, aliases⟩ :: ss
      | _ => parseServiceLines p e rest
    | _ => parseServiceLines p e rest

/-- `ParseServices` (service.go). -/
def ParseServices (r : InStream) (p : ProtocolIndex) : Option (List Service) :=
  parseServiceLines p r.fails r.lines

/-- The record a single services line contributes, if any; a specification
function used to characterize `ParseServices` as a whole. -/
def serviceLine (p : ProtocolIndex) (line : String) : Option Service :=
  match lineFields line with
  | name :: pp :: aliases =>
    match splitSlash pp.data with
    | [portTok, protoTok] =>
      match parseUint 10 16 portTok with
      | none => none
      | some port =>
        match p.Names.find (String.mk protoTok) with
        | none => none
        | some proto => some ⟨name, (port : Int), String.mk protoTok, some proto, aliases⟩
    | _ => none
  | _ => none

/-- `LoadServices` (service.go), with the same modelling as
`LoadProtocols`. -/
def LoadServices (file : Option InStream) (protos : ProtocolIndex) : ServiceIndex × Bool :=
  match file with
  | none => (NewServiceIndex [], true)
  | some r =>
    match ParseServices r protos with
    | none => (NewServiceIndex [], true)
    | some services => (NewServiceIndex services, false)

/-- `ServiceByName` (service.go); the process-wide `Services` variable is
passed in and returned, and `builtin` stands for the generated
`BuiltinServices` table (not part of the analysed sources). -/
def ServiceByName (builtin : List Service) (g : ServiceIndex) (name protocol : String) :
    ServiceIndex × Option Service :=
  let g := if g.Names.isNil then NewServiceIndex builtin else g
  (g, g.ByName name protocol)

/-- `ServiceByPort` (service.go), with the same state passing as
`ServiceByName`. -/
def ServiceByPort (builtin : List Service) (g : ServiceIndex) (port : Int) (protocol : String) :
    ServiceIndex × Option Service :=
  let g := if g.Names.isNil then NewServiceIndex builtin else g
  (g, g.ByPort port protocol)

/-- The body of the `range` loop of `EtherTypeIndex.Merge` for one
record. -/
def EtherTypeIndex.mergeOne (i : EtherTypeIndex) (ethertype : EtherType) : EtherTypeIndex :=
  { Names := ethertype.Aliases.foldl (fun m aname => m.insert aname ethertype)
      (i.Names.insert ethertype.Name ethertype),
    Numbers := i.Numbers.insert ethertype.Number ethertype }

/-- `(*EtherTypeIndex).Merge` (ethertype.go). -/
def EtherTypeIndex.Merge (i : EtherTypeIndex) (ethertypes : List EtherType) : EtherTypeIndex :=
  ethertypes.foldl EtherTypeIndex.mergeOne i

/-- `NewEtherTypeIndex` (ethertype.go). -/
def NewEtherTypeIndex (ethertypes : List EtherType) : EtherTypeIndex :=
  EtherTypeIndex.Merge { Names := .alloc [], Numbers := .alloc [] } ethertypes

/-- `(*EtherTypeIndex).MergeIndex` (ethertype.go). -/
def EtherTypeIndex.MergeIndex (i eti : EtherTypeIndex) : EtherTypeIndex :=
  { Names := i.Names.mergeFrom eti.Names, Numbers := i.Numbers.mergeFrom eti.Numbers }

/-- The scanning loop of `ParseEtherTypes`: trim the line, skip it when it
starts with `'#'`, otherwise keep the trimmed text after the first `'#'`
as the comment, tokenize the part before it, and require a base-16 number
fitting 16 bits (a parse failure is fatal). -/
def parseEtherTypeLines (e : Bool) : List String → Option (List EtherType)
  | [] => if e then none else some []
  | line :: rest =>
    let t := trimCh line.data
    if t.head? = some '#' then parseEtherTypeLines e rest
    else
      let comps := splitHash t
      let comment : String := match comps.2 with
        | some c => String.mk (trimCh c)
        | none => ""
      match (fieldsCh comps.1).map String.mk with
      | name :: numTok :: aliases =>
        match parseUint 16 16 numTok.data with
        | none => none
        | some n =>
          (parseEtherTypeLines e rest).map fun ts => ⟨name, n, aliases, comment⟩ :: ts
      | _ => parseEtherTypeLines e rest

/-- `ParseEtherTypes` (ethertype.go). -/
def ParseEtherTypes (r : InStream) : Option (List EtherType) :=
  parseEtherTypeLines r.fails r.lines

/-- `LoadEtherTypes` (ethertype.go), with the same modelling as
`LoadProtocols`. -/
def LoadEtherTypes (file : Option InStream) : EtherTypeIndex × Bool :=
  match file with
  | none => (NewEtherTypeIndex [], true)
  | some r =>
    match ParseEtherTypes r with
    | none => (NewEtherTypeIndex [], true)
    | some ethertypes => (NewEtherTypeIndex ethertypes, false)

/-- `EtherTypeByName` (ethertype.go); the process-wide `EtherTypes`
variable is passed in and returned, and `builtin` stands for the generated
`BuiltinEtherTypes` table (not part of the analysed sources). -/
def EtherTypeByName (builtin : List EtherType) (g : EtherTypeIndex) (name : String) :
    EtherTypeIndex × Option EtherType :=
  let g := if g.Numbers.isNil then NewEtherTypeIndex builtin else g
  (g, g.Names.find name)

/-- `EtherTypeByNumber` (ethertype.go), with the same state passing as
`EtherTypeByName`. -/
def EtherTypeByNumber (builtin : List EtherType) (g : EtherTypeIndex) (number : Nat) :
    EtherTypeIndex × Option EtherType :=
  let g := if g.Numbers.isNil then NewEtherTypeIndex builtin else g
  (g, g.Numbers.find number)

/-- A protocols(5) line on which `ParseProtocols` fails: after comment
stripping and whitespace splitting it has at least two tokens, and the
second token does not parse as an unsigned 8-bit base-10 number. -/
def protoNumBad (line : String) : Bool :=
  match lineFields line with
  | _ :: numTok :: _ => (parseUint 10 8 numTok.data).isNone
  | _ => false

/-- An ethertypes line on which `ParseEtherTypes` fails: after comment
stripping and whitespace splitting it has at least two tokens, and the
second token does not parse as an unsigned 16-bit base-16 number. -/
def etherNumBad (line : String) : Bool :=
  match lineFields line with
  | _ :: numTok :: _ => (parseUint 16 16 numTok.data).isNone
  | _ => false

/-! ### Association-list and Go-map lemmas -/

theorem alookup_cons {K V : Type} [DecidableEq K] (k k' : K) (v : V) (es : List (K × V)) :
    alookup k ((k', v) :: es) = if k = k' then some v else alookup k es := rfl

theorem GoMap.find_insert {K V : Type} [DecidableEq K] (m : GoMap K V) (k k' : K) (v : V) :
    (m.insert k v).find k' = if k' = k then some v else m.find k' := by
  cases m <;> simp [GoMap.insert, GoMap.find, alookup_cons, alookup]

theorem GoMap.find_mergeFrom {K V : Type} [DecidableEq K] (dst src : GoMap K V) (k : K) :
    (dst.mergeFrom src).find k = Option.or (src.find k) (dst.find k) := by
  cases src with
  | nil => simp [GoMap.mergeFrom, GoMap.find, Option.or]
  | alloc es =>
    induction es with
    | nil => simp [GoMap.mergeFrom, GoMap.find, alookup, Option.or]
    | cons kv es ih =>
      obtain ⟨k', v⟩ := kv
      have hL : dst.mergeFrom (GoMap.alloc ((k', v) :: es)) =
          (dst.mergeFrom (GoMap.alloc es)).insert k' v := rfl
      have hR : (GoMap.alloc ((k', v) :: es) : GoMap K V).find k =
          if k = k' then some v else (GoMap.alloc es : GoMap K V).find k := rfl
      rw [hL, GoMap.find_insert, ih, hR]
      by_cases h : k = k' <;> simp [h, Option.or]

theorem GoMap.find_mergeFrom_empty {K V : Type} [DecidableEq K] (src : GoMap K V) (k : K) :
    ((GoMap.alloc ([] : List (K × V))).mergeFrom src).find k = src.find k := by
  rw [GoMap.find_mergeFrom]
  cases h : src.find k <;> simp [GoMap.find, alookup, Option.or]

theorem GoMap.find_foldl_insert {K V : Type} [DecidableEq K]
    (ks : List K) (v : V) (m : GoMap K V) (k : K) :
    ((ks.foldl (fun m a => m.insert a v) m).find k) =
      if k ∈ ks then some v else m.find k := by
  induction ks generalizing m with
  | nil => simp
  | cons a ks ih =>
    simp only [List.foldl_cons, ih, GoMap.find_insert, List.mem_cons]
    by_cases hk : k ∈ ks <;> by_cases ha : k = a <;> simp [hk, ha]

/-! ### Protocol/EtherType merge: last write wins on every key -/

theorem ProtocolIndex.mergeOne_Names (i : ProtocolIndex) (p : Protocol) (x : String) :
    (i.mergeOne p).Names.find x =
      if x = p.Name ∨ x ∈ p.Aliases then some p else i.Names.find x := by
  show ((p.Aliases.foldl (fun m aname => m.insert aname p) (i.Names.insert p.Name p)).find x) = _
  rw [GoMap.find_foldl_insert, GoMap.find_insert]
  by_cases h1 : x ∈ p.Aliases <;> by_cases h2 : x = p.Name <;> simp [h1, h2]

theorem ProtocolIndex.mergeOne_Numbers (i : ProtocolIndex) (p : Protocol) (m : Nat) :
    (i.mergeOne p).Numbers.find m =
      if m = p.Number then some p else i.Numbers.find m := by
  show (i.Numbers.insert p.Number p).find m = _
  rw [GoMap.find_insert]

theorem EtherTypeIndex.etherMergeOne_Names (i : EtherTypeIndex) (t : EtherType) (x : String) :
    (i.mergeOne t).Names.find x =
      if x = t.Name ∨ x ∈ t.Aliases then some t else i.Names.find x := by
  show ((t.Aliases.foldl (fun m aname => m.insert aname t) (i.Names.insert t.Name t)).find x) = _
  rw [GoMap.find_foldl_insert, GoMap.find_insert]
  by_cases h1 : x ∈ t.Aliases <;> by_cases h2 : x = t.Name <;> simp [h1, h2]

theorem EtherTypeIndex.etherMergeOne_Numbers (i : EtherTypeIndex) (t : EtherType) (m : Nat) :
    (i.mergeOne t).Numbers.find m =
      if m = t.Number then some t else i.Numbers.find m := by
  show (i.Numbers.insert t.Number t).find m = _
  rw [GoMap.find_insert]

/-! ### Service merge: the alias loop -/

theorem serviceAliasFold_comp (s : Service) (al : List String)
    (m : GoMap ServiceProtocol Service) (x : String) :
    ((al.foldl
        (fun m aname =>
          let m0 := if (m.find ⟨aname, ""⟩).isSome then m else m.insert ⟨aname, ""⟩ s
          m0.insert ⟨aname, s.ProtocolName⟩ s)
        m).find ⟨x, s.ProtocolName⟩) =
      if x ∈ al then some s else m.find ⟨x, s.ProtocolName⟩ := by
  induction al generalizing m with
  | nil => simp
  | cons a al ih =>
    simp only [List.foldl_cons, ih, List.mem_cons]
    by_cases hx : x ∈ al
    · simp [hx]
    · by_cases ha : x = a
      · subst ha
        simp only [hx, or_false, if_true, if_false, GoMap.find_insert, if_pos rfl]
      · have hkey : (⟨x, s.ProtocolName⟩ : ServiceProtocol) ≠ ⟨a, s.ProtocolName⟩ := by
          simp [ServiceProtocol.mk.injEq, ha]
        simp only [GoMap.find_insert, if_neg hkey, hx, if_false, ha, or_false]
        by_cases hc : (m.find ⟨a, ""⟩).isSome
        · simp [hc]
        · simp [hc, GoMap.find_insert, ServiceProtocol.mk.injEq, ha]

theorem serviceAliasFold_agnostic (s : Service) (hp : s.ProtocolName ≠ "")
    (al : List String) (m : GoMap ServiceProtocol Service) (x : String) :
    ((al.foldl
        (fun m aname =>
          let m0 := if (m.find ⟨aname, ""⟩).isSome then m else m.insert ⟨aname, ""⟩ s
          m0.insert ⟨aname, s.ProtocolName⟩ s)
        m).find ⟨x, ""⟩) =
      if x ∈ al then some ((m.find ⟨x, ""⟩).getD s) else m.find ⟨x, ""⟩ := by
  induction al generalizing m with
  | nil => simp
  | cons a al ih =>
    have hstep : ∀ m' : GoMap ServiceProtocol Service,
        ((let m0 := if (m'.find ⟨a, ""⟩).isSome then m' else m'.insert ⟨a, ""⟩ s
          m0.insert ⟨a, s.ProtocolName⟩ s).find ⟨x, ""⟩) =
          if x = a then some ((m'.find ⟨a, ""⟩).getD s) else m'.find ⟨x, ""⟩ := by
      intro m'
      have hkey : (⟨x, ""⟩ : ServiceProtocol) ≠ ⟨a, s.ProtocolName⟩ := by
        simp only [ne_eq, ServiceProtocol.mk.injEq, not_and]
        intro _ h
        exact hp h.symm
      simp only [GoMap.find_insert, if_neg hkey]
      by_cases hc : (m'.find ⟨a, ""⟩).isSome
      · rw [if_pos hc]
        by_cases ha : x = a
        · subst ha
          obtain ⟨v, hv⟩ := Option.isSome_iff_exists.mp hc
          simp [hv]
        · simp [ha]
      · rw [if_neg hc]
        rw [GoMap.find_insert]
        by_cases ha : x = a
        · subst ha
          rw [Option.not_isSome_iff_eq_none] at hc
          simp [hc]
        · have hkey2 : (⟨x, ""⟩ : ServiceProtocol) ≠ ⟨a, ""⟩ := by
            simp [ServiceProtocol.mk.injEq, ha]
          simp [ha, if_neg hkey2]
    simp only [List.foldl_cons, ih, hstep, List.mem_cons]
    by_cases hx : x ∈ al
    · by_cases ha : x = a
      · subst ha
        simp [hx]
      · simp [hx, ha]
    · by_cases ha : x = a
      · subst ha
        simp [hx]
      · simp [hx, ha]

/-! ### Service merge: one record -/

theorem ServiceIndex.mergeOne_ByName_comp (i : ServiceIndex) (s : Service) :
    (i.mergeOne s).ByName s.Name s.ProtocolName = some s := by
  show ((s.Aliases.foldl
      (fun m aname =>
        let m0 := if (m.find ⟨aname, ""⟩).isSome then m else m.insert ⟨aname, ""⟩ s
        m0.insert ⟨aname, s.ProtocolName⟩ s)
      (((if (i.Names.find ⟨s.Name, ""⟩).isSome then i.Names
          else i.Names.insert ⟨s.Name, ""⟩ s).insert ⟨s.Name, s.ProtocolName⟩ s))).find
      ⟨s.Name, s.ProtocolName⟩) = some s
  rw [serviceAliasFold_comp, GoMap.find_insert]
  by_cases h : s.Name ∈ s.Aliases <;> simp [h]

theorem ServiceIndex.mergeOne_ByName_alias_comp (i : ServiceIndex) (s : Service)
    (a : String) (ha : a ∈ s.Aliases) :
    (i.mergeOne s).ByName a s.ProtocolName = some s := by
  show ((s.Aliases.foldl
      (fun m aname =>
        let m0 := if (m.find ⟨aname, ""⟩).isSome then m else m.insert ⟨aname, ""⟩ s
        m0.insert ⟨aname, s.ProtocolName⟩ s)
      (((if (i.Names.find ⟨s.Name, ""⟩).isSome then i.Names
          else i.Names.insert ⟨s.Name, ""⟩ s).insert ⟨s.Name, s.ProtocolName⟩ s))).find
      ⟨a, s.ProtocolName⟩) = some s
  rw [serviceAliasFold_comp]
  simp [ha]

theorem ServiceIndex.mergeOne_ByName_agnostic (i : ServiceIndex) (s : Service)
    (hp : s.ProtocolName ≠ "") :
    (i.mergeOne s).ByName s.Name "" = some ((i.ByName s.Name "").getD s) := by
  show ((s.Aliases.foldl
      (fun m aname =>
        let m0 := if (m.find ⟨aname, ""⟩).isSome then m else m.insert ⟨aname, ""⟩ s
        m0.insert ⟨aname, s.ProtocolName⟩ s)
      (((if (i.Names.find ⟨s.Name, ""⟩).isSome then i.Names
          else i.Names.insert ⟨s.Name, ""⟩ s).insert ⟨s.Name, s.ProtocolName⟩ s))).find
      ⟨s.Name, ""⟩) = some ((i.Names.find ⟨s.Name, ""⟩).getD s)
  rw [serviceAliasFold_agnostic s hp]
  have hkey : (⟨s.Name, ""⟩ : ServiceProtocol) ≠ ⟨s.Name, s.ProtocolName⟩ := by
    simp only [ne_eq, ServiceProtocol.mk.injEq, not_and]
    intro _ h
    exact hp h.symm
  have hbase : (((if (i.Names.find ⟨s.Name, ""⟩).isSome then i.Names
      else i.Names.insert ⟨s.Name, ""⟩ s).insert ⟨s.Name, s.ProtocolName⟩ s).find
      ⟨s.Name, ""⟩) = some ((i.Names.find ⟨s.Name, ""⟩).getD s) := by
    rw [GoMap.find_insert, if_neg hkey]
    by_cases hc : (i.Names.find ⟨s.Name, ""⟩).isSome
    · obtain ⟨v, hv⟩ := Option.isSome_iff_exists.mp hc
      simp [hc, hv]
    · rw [Option.not_isSome_iff_eq_none] at hc
      simp [hc, GoMap.find_insert]
  rw [hbase]
  by_cases h : s.Name ∈ s.Aliases <;> simp [h]

theorem ServiceIndex.mergeOne_ByName_alias_agnostic (i : ServiceIndex) (s : Service)
    (hp : s.ProtocolName ≠ "") (a : String) (ha : a ∈ s.Aliases) :
    (i.mergeOne s).ByName a "" = some ((i.ByName a "").getD s) := by
  show ((s.Aliases.foldl
      (fun m aname =>
        let m0 := if (m.find ⟨aname, ""⟩).isSome then m else m.insert ⟨aname, ""⟩ s
        m0.insert ⟨aname, s.ProtocolName⟩ s)
      (((if (i.Names.find ⟨s.Name, ""⟩).isSome then i.Names
          else i.Names.insert ⟨s.Name, ""⟩ s).insert ⟨s.Name, s.ProtocolName⟩ s))).find
      ⟨a, ""⟩) = some ((i.Names.find ⟨a, ""⟩).getD s)
  rw [serviceAliasFold_agnostic s hp, if_pos ha]
  have hkey : (⟨a, ""⟩ : ServiceProtocol) ≠ ⟨s.Name, s.ProtocolName⟩ := by
    simp only [ne_eq, ServiceProtocol.mk.injEq, not_and]
    intro _ h
    exact hp h.symm
  rw [GoMap.find_insert, if_neg hkey]
  by_cases hc : (i.Names.find ⟨s.Name, ""⟩).isSome
  · rw [if_pos hc]
  · rw [if_neg hc, GoMap.find_insert]
    by_cases hax : (⟨a, ""⟩ : ServiceProtocol) = ⟨s.Name, ""⟩
    · rw [if_pos hax]
      rw [Option.not_isSome_iff_eq_none] at hc
      have : a = s.Name := by
        simpa [ServiceProtocol.mk.injEq] using hax
      rw [this, hc]
      simp
    · rw [if_neg hax]

theorem ServiceIndex.mergeOne_ByPort_comp (i : ServiceIndex) (s : Service) :
    (i.mergeOne s).ByPort s.Port s.ProtocolName = some s := by
  show (((if (i.Ports.find ⟨s.Port, ""⟩).isSome then i.Ports
      else i.Ports.insert ⟨s.Port, ""⟩ s).insert ⟨s.Port, s.ProtocolName⟩ s).find
      ⟨s.Port, s.ProtocolName⟩) = some s
  rw [GoMap.find_insert, if_pos rfl]

theorem ServiceIndex.mergeOne_ByPort_agnostic (i : ServiceIndex) (s : Service)
    (hp : s.ProtocolName ≠ "") :
    (i.mergeOne s).ByPort s.Port "" = some ((i.ByPort s.Port "").getD s) := by
  show (((if (i.Ports.find ⟨s.Port, ""⟩).isSome then i.Ports
      else i.Ports.insert ⟨s.Port, ""⟩ s).insert ⟨s.Port, s.ProtocolName⟩ s).find
      ⟨s.Port, ""⟩) = some ((i.Ports.find ⟨s.Port, ""⟩).getD s)
  have hkey : (⟨s.Port, ""⟩ : ServicePort) ≠ ⟨s.Port, s.ProtocolName⟩ := by
    simp only [ne_eq, ServicePort.mk.injEq, not_and]
    intro _ h
    exact hp h.symm
  rw [GoMap.find_insert, if_neg hkey]
  by_cases hc : (i.Ports.find ⟨s.Port, ""⟩).isSome
  · obtain ⟨v, hv⟩ := Option.isSome_iff_exists.mp hc
    simp [hc, hv]
  · rw [Option.not_isSome_iff_eq_none] at hc
    simp [hc, GoMap.find_insert]

/-! ### Trim / comment-splitting lemmas -/

theorem dropWhile_append_cons (p : List Char) (x : Char) (c : List Char)
    (hx : isSpace x = false) :
    List.dropWhile isSpace (p ++ x :: c) = List.dropWhile isSpace p ++ x :: c := by
  induction p with
  | nil => simp [List.dropWhile_cons, hx]
  | cons d p ih =>
    by_cases hd : isSpace d
    · simpa [List.dropWhile_cons, hd] using ih
    · simp [List.dropWhile_cons, hd]

theorem rtrim_append_hash (p c : List Char) :
    rtrim (p ++ '#' :: c) = p ++ '#' :: rtrim c := by
  have hx : isSpace '#' = false := by decide
  unfold rtrim
  rw [show (p ++ '#' :: c).reverse = c.reverse ++ '#' :: p.reverse by simp,
    dropWhile_append_cons c.reverse '#' p.reverse hx]
  simp

theorem trim_append_hash (p c : List Char) :
    trimCh (p ++ '#' :: c) = List.dropWhile isSpace p ++ '#' :: rtrim c := by
  have hx : isSpace '#' = false := by decide
  unfold trimCh ltrim
  rw [rtrim_append_hash, dropWhile_append_cons p '#' (rtrim c) hx]

theorem splitHash_no_hash (q : List Char) (h : '#' ∉ q) : splitHash q = (q, none) := by
  induction q with
  | nil => rfl
  | cons d q ih =>
    simp only [List.mem_cons, not_or] at h
    simp [splitHash, Ne.symm h.1, ih h.2]

theorem splitHash_append (q r : List Char) (h : '#' ∉ q) :
    splitHash (q ++ '#' :: r) = (q, some r) := by
  induction q with
  | nil => simp [splitHash]
  | cons d q ih =>
    simp only [List.mem_cons, not_or] at h
    simp [splitHash, Ne.symm h.1, ih h.2]

theorem rtrim_idem (l : List Char) : rtrim (rtrim l) = rtrim l := by
  unfold rtrim
  rw [List.reverse_reverse, List.dropWhile_idempotent]

theorem trimCh_rtrim (c : List Char) : trimCh (rtrim c) = trimCh c := by
  unfold trimCh
  rw [rtrim_idem]

theorem lineFields_append_hash (pre c : String) (h : '#' ∉ pre.data) :
    lineFields (pre ++ "#" ++ c) =
      (fieldsCh (List.dropWhile isSpace pre.data)).map String.mk := by
  have hdata : (pre ++ "#" ++ c).data = pre.data ++ '#' :: c.data := by
    simp [String.data_append]
  have hq : '#' ∉ List.dropWhile isSpace pre.data := fun hx =>
    h ((List.dropWhile_suffix isSpace).subset hx)
  unfold lineFields
  rw [hdata, trim_append_hash, splitHash_append _ _ hq]

/-! ### Parser lemmas: fatal numeric fields (C2) -/

theorem parseProtocolLines_any_bad (e : Bool) (lines : List String)
    (h : lines.any protoNumBad = true) : parseProtocolLines e lines = none := by
  induction lines with
  | nil => simp at h
  | cons line rest ih =>
    rw [List.any_cons, Bool.or_eq_true] at h
    rcases h with h1 | h2
    · cases hf : lineFields line with
      | nil => simp [protoNumBad, hf] at h1
      | cons name tl =>
        cases tl with
        | nil => simp [protoNumBad, hf] at h1
        | cons numTok al =>
          simp only [protoNumBad, hf, Option.isNone_iff_eq_none] at h1
          simp [parseProtocolLines, hf, h1]
    · have hrest := ih h2
      cases hf : lineFields line with
      | nil => simp [parseProtocolLines, hf, hrest]
      | cons name tl =>
        cases tl with
        | nil => simp [parseProtocolLines, hf, hrest]
        | cons numTok al =>
          cases hu : parseUint 10 8 numTok.data with
          | none => simp [parseProtocolLines, hf, hu]
          | some n => simp [parseProtocolLines, hf, hu, hrest]

theorem parseEtherTypeLines_any_bad (e : Bool) (lines : List String)
    (h : lines.any etherNumBad = true) : parseEtherTypeLines e lines = none := by
  induction lines with
  | nil => simp at h
  | cons line rest ih =>
    rw [List.any_cons, Bool.or_eq_true] at h
    have hlf : lineFields line = (fieldsCh (splitHash (trimCh line.data)).1).map String.mk := rfl
    by_cases hh : (trimCh line.data).head? = some '#'
    · have hflds : lineFields line = [] := by
        cases ht : trimCh line.data with
        | nil => rw [ht] at hh; simp at hh
        | cons d tl =>
          rw [ht] at hh
          simp only [List.head?_cons, Option.some.injEq] at hh
          subst hh
          simp [hlf, ht, splitHash, fieldsCh, splitWs]
      rcases h with h1 | h2
      · simp [etherNumBad, hflds] at h1
      · simp [parseEtherTypeLines, hh, ih h2]
    · rcases h with h1 | h2
      · cases hf : lineFields line with
        | nil => simp [etherNumBad, hf] at h1
        | cons name tl =>
          cases tl with
          | nil => simp [etherNumBad, hf] at h1
          | cons numTok al =>
            simp only [etherNumBad, hf, Option.isNone_iff_eq_none] at h1
            rw [hlf] at hf
            simp [parseEtherTypeLines, hh, hf, h1]
      · have hrest := ih h2
        cases hf : (fieldsCh (splitHash (trimCh line.data)).1).map String.mk with
        | nil => simp [parseEtherTypeLines, hh, hf, hrest]
        | cons name tl =>
          cases tl with
          | nil => simp [parseEtherTypeLines, hh, hf, hrest]
          | cons numTok al =>
            cases hu : parseUint 16 16 numTok.data with
            | none => simp [parseEtherTypeLines, hh, hf, hu]
            | some n => simp [parseEtherTypeLines, hh, hf, hu, hrest]

/-! ### Service parser lemmas (C3, C8) -/

theorem parseServiceLines_eq_filterMap (p : ProtocolIndex) (lines : List String) :
    parseServiceLines p false lines = some (lines.filterMap (serviceLine p)) := by
  induction lines with
  | nil => simp [parseServiceLines]
  | cons line rest ih =>
    cases hf : lineFields line with
    | nil => simp [parseServiceLines, serviceLine, hf, List.filterMap_cons, ih]
    | cons name tl =>
      cases tl with
      | nil => simp [parseServiceLines, serviceLine, hf, List.filterMap_cons, ih]
      | cons pp al =>
        cases hs : splitSlash pp.data with
        | nil => simp [parseServiceLines, serviceLine, hf, hs, List.filterMap_cons, ih]
        | cons a tl2 =>
          cases tl2 with
          | nil => simp [parseServiceLines, serviceLine, hf, hs, List.filterMap_cons, ih]
          | cons b tl3 =>
            cases tl3 with
            | cons x tl4 =>
              simp [parseServiceLines, serviceLine, hf, hs, List.filterMap_cons, ih]
            | nil =>
              cases hu : parseUint 10 16 a with
              | none =>
                simp [parseServiceLines, serviceLine, hf, hs, hu, List.filterMap_cons, ih]
              | some port =>
                cases hq : p.Names.find (String.mk b) with
                | none =>
                  simp [parseServiceLines, serviceLine, hf, hs, hu, hq,
                    List.filterMap_cons, ih]
                | some proto =>
                  simp [parseServiceLines, serviceLine, hf, hs, hu, hq,
                    List.filterMap_cons, ih]

theorem serviceLine_skip (p : ProtocolIndex) (line : String)
    (name tok : String) (al : List String)
    (hf : lineFields line = name :: tok :: al)
    (hbad : (splitSlash tok.data).length ≠ 2 ∨
      ∀ a b, splitSlash tok.data = [a, b] →
        parseUint 10 16 a = none ∨ p.Names.find (String.mk b) = none) :
    serviceLine p line = none := by
  cases hs : splitSlash tok.data with
  | nil => simp [serviceLine, hf, hs]
  | cons a tl =>
    cases tl with
    | nil => simp [serviceLine, hf, hs]
    | cons b tl2 =>
      cases tl2 with
      | cons x tl3 => simp [serviceLine, hf, hs]
      | nil =>
        rcases hbad with hlen | hab
        · rw [hs] at hlen
          simp at hlen
        · rcases hab a b (by rw [hs]) with hu | hq
          · simp [serviceLine, hf, hs, hu]
          · cases hu2 : parseUint 10 16 a with
            | none => simp [serviceLine, hf, hs, hu2]
            | some port => simp [serviceLine, hf, hs, hu2, hq]

theorem parseServiceLines_resolved (p : ProtocolIndex) (e : Bool) (lines : List String)
    (ss : List Service) (hp : parseServiceLines p e lines = some ss) :
    ∀ s ∈ ss, ∃ pr, s.Protocol = some pr ∧ p.Names.find s.ProtocolName = some pr := by
  induction lines generalizing ss with
  | nil =>
    cases e with
    | true => simp [parseServiceLines] at hp
    | false =>
      simp only [parseServiceLines, if_false, Bool.false_eq_true, Option.some.injEq] at hp
      subst hp
      simp
  | cons line rest ih =>
    simp only [parseServiceLines] at hp
    cases hf : lineFields line with
    | nil =>
      simp only [hf] at hp
      exact ih ss hp
    | cons name tl =>
      cases tl with
      | nil =>
        simp only [hf] at hp
        exact ih ss hp
      | cons pp al =>
        simp only [hf] at hp
        cases hs : splitSlash pp.data with
        | nil =>
          simp only [hs] at hp
          exact ih ss hp
        | cons a tl2 =>
          cases tl2 with
          | nil =>
            simp only [hs] at hp
            exact ih ss hp
          | cons b tl3 =>
            cases tl3 with
            | cons x tl4 =>
              simp only [hs] at hp
              exact ih ss hp
            | nil =>
              simp only [hs] at hp
              cases hu : parseUint 10 16 a with
              | none =>
                simp only [hu] at hp
                exact ih ss hp
              | some port =>
                simp only [hu] at hp
                cases hq : p.Names.find (String.mk b) with
                | none =>
                  simp only [hq] at hp
                  exact ih ss hp
                | some proto =>
                  simp only [hq] at hp
                  cases ht : parseServiceLines p e rest with
                  | none =>
                    rw [ht] at hp
                    simp at hp
                  | some tail =>
                    rw [ht] at hp
                    simp only [Option.map_some', Option.some.injEq] at hp
                    subst hp
                    intro s hs2
                    rcases List.mem_cons.mp hs2 with h | h
                    · subst h
                      exact ⟨proto, rfl, hq⟩
                    · exact ih tail ht s h

/-! ### Comment handling lemmas (C9) -/

theorem mem_rtrim {x : Char} {l : List Char} (h : x ∈ rtrim l) : x ∈ l := by
  unfold rtrim at h
  rw [List.mem_reverse] at h
  have h2 := (List.dropWhile_suffix isSpace).subset h
  rwa [List.mem_reverse] at h2

theorem mem_trimCh {x : Char} {l : List Char} (h : x ∈ trimCh l) : x ∈ l := by
  unfold trimCh ltrim at h
  exact mem_rtrim ((List.dropWhile_suffix isSpace).subset h)

theorem parseEtherTypeLines_comment_step (e : Bool) (rest : List String) (pre c : String)
    (hpre : '#' ∉ pre.data) (name numTok : String) (al : List String)
    (hf : lineFields (pre ++ "#" ++ c) = name :: numTok :: al)
    (n : Nat) (hn : parseUint 16 16 numTok.data = some n) :
    parseEtherTypeLines e ((pre ++ "#" ++ c) :: rest) =
      (parseEtherTypeLines e rest).map
        (fun ts => ⟨name, n, al, String.mk (trimCh c.data)⟩ :: ts) := by
  have hdata : (pre ++ "#" ++ c).data = pre.data ++ '#' :: c.data := by
    simp [String.data_append]
  have hq : '#' ∉ List.dropWhile isSpace pre.data := fun hx =>
    hpre ((List.dropWhile_suffix isSpace).subset hx)
  have htr : trimCh (pre ++ "#" ++ c).data =
      List.dropWhile isSpace pre.data ++ '#' :: rtrim c.data := by
    rw [hdata, trim_append_hash]
  have hsh : splitHash (trimCh (pre ++ "#" ++ c).data) =
      (List.dropWhile isSpace pre.data, some (rtrim c.data)) := by
    rw [htr, splitHash_append _ _ hq]
  have hf2 : (fieldsCh (splitHash (trimCh (pre ++ "#" ++ c).data)).1).map String.mk =
      name :: numTok :: al := hf
  rw [hsh] at hf2
  have hne : (trimCh (pre ++ "#" ++ c).data).head? ≠ some '#' := by
    rw [htr]
    cases hE : List.dropWhile isSpace pre.data with
    | nil =>
      exfalso
      rw [hE] at hf2
      simp [fieldsCh, splitWs] at hf2
    | cons d ds =>
      have hd : d ≠ '#' := by
        rw [hE] at hq
        simp only [List.mem_cons, not_or] at hq
        exact fun hEq => hq.1 hEq.symm
      simp [hd]
  simp only [parseEtherTypeLines, hsh, hf2, hn, if_neg hne, trimCh_rtrim]

theorem parseEtherTypeLines_nocomment_step (e : Bool) (rest : List String) (line : String)
    (hline : '#' ∉ line.data) (name numTok : String) (al : List String)
    (hf : lineFields line = name :: numTok :: al)
    (n : Nat) (hn : parseUint 16 16 numTok.data = some n) :
    parseEtherTypeLines e (line :: rest) =
      (parseEtherTypeLines e rest).map (fun ts => ⟨name, n, al, ""⟩ :: ts) := by
  have htm : '#' ∉ trimCh line.data := fun hx => hline (mem_trimCh hx)
  have hsh : splitHash (trimCh line.data) = (trimCh line.data, none) :=
    splitHash_no_hash _ htm
  have hf2 : (fieldsCh (splitHash (trimCh line.data)).1).map String.mk =
      name :: numTok :: al := hf
  rw [hsh] at hf2
  have hne : (trimCh line.data).head? ≠ some '#' := by
    cases hE : trimCh line.data with
    | nil => simp
    | cons d ds =>
      have hd : d ≠ '#' := by
        rw [hE] at htm
        simp only [List.mem_cons, not_or] at htm
        exact fun hEq => htm.1 hEq.symm
      simp [hd]
  simp only [parseEtherTypeLines, hsh, hf2, hn, if_neg hne]

theorem parseProtocolLines_comment_irrelevant (e : Bool) (rest : List String)
    (pre c : String) (hpre : '#' ∉ pre.data) :
    parseProtocolLines e ((pre ++ "#" ++ c) :: rest) =
      parseProtocolLines e ((pre ++ "#") :: rest) := by
  have h1 := lineFields_append_hash pre c hpre
  have h2 := lineFields_append_hash pre "" hpre
  rw [show pre ++ "#" ++ "" = pre ++ "#" by simp] at h2
  simp only [parseProtocolLines, h1, h2]

theorem parseServiceLines_comment_irrelevant (p : ProtocolIndex) (e : Bool)
    (rest : List String) (pre c : String) (hpre : '#' ∉ pre.data) :
    parseServiceLines p e ((pre ++ "#" ++ c) :: rest) =
      parseServiceLines p e ((pre ++ "#") :: rest) := by
  have h1 := lineFields_append_hash pre c hpre
  have h2 := lineFields_append_hash pre "" hpre
  rw [show pre ++ "#" ++ "" = pre ++ "#" by simp] at h2
  simp only [parseServiceLines, h1, h2]

/-! ### Claims -/

/-- Claim C1 counterexample: the protocol-less first-write-wins rule is
violated by a record whose `ProtocolName` is empty. After merging a first
record for name "a" (protocol "tcp") and then a second record for "a" with
an empty `ProtocolName`, the protocol-less lookup `ByName "a" ""` yields
the second record, not the first: the second record's name+protocol
composite key coincides with the protocol-less key and is written
unconditionally. -/
theorem claim_C1_counterexample :
    (NewServiceIndex
        [⟨"a", 1, "tcp", none, []⟩, ⟨"a", 2, "", none, []⟩]).ByName "a" "" =
      some ⟨"a", 2, "", none, []⟩
    ∧ (⟨"a", 2, "", none, []⟩ : Service) ≠ ⟨"a", 1, "tcp", none, []⟩ := by
  decide

/-- Claim C1 (amended): `ServiceIndex.Merge` processes records in input
order. For each record, the name+protocol, alias+protocol and
port+protocol composite keys are always registered, overwriting earlier
entries; for a record whose `ProtocolName` is non-empty, the protocol-less
name, alias and port keys are registered only if not already present
(first write wins; a record with empty `ProtocolName` instead overwrites
the protocol-less keys, because its composite key coincides with them).
In particular, after indexing the records parsed from
"crash 666/foobar burn" and "crash 666/baz burn" (both protocols
registered), `ByName "crash" ""` is the first record (protocol "foobar")
and `ByName "crash" "baz"` is the second. -/
theorem claim_C1 :
    (∀ (i : ServiceIndex) (s : Service) (ss : List Service),
        i.Merge (s :: ss) = (i.Merge [s]).Merge ss)
    ∧ (∀ (i : ServiceIndex) (s : Service),
        (i.Merge [s]).ByName s.Name s.ProtocolName = some s
        ∧ (∀ a ∈ s.Aliases, (i.Merge [s]).ByName a s.ProtocolName = some s)
        ∧ (i.Merge [s]).ByPort s.Port s.ProtocolName = some s
        ∧ (s.ProtocolName ≠ "" →
            (i.Merge [s]).ByName s.Name "" = some ((i.ByName s.Name "").getD s)
            ∧ (∀ a ∈ s.Aliases,
                (i.Merge [s]).ByName a "" = some ((i.ByName a "").getD s))
            ∧ (i.Merge [s]).ByPort s.Port "" = some ((i.ByPort s.Port "").getD s)))
    ∧ (ParseServices ⟨["crash 666/foobar burn", "crash 666/baz burn"], false⟩
          (NewProtocolIndex [⟨"foobar", 12, []⟩, ⟨"baz", 234, []⟩]) =
        some [⟨"crash", 666, "foobar", some ⟨"foobar", 12, []⟩, ["burn"]⟩,
          ⟨"crash", 666, "baz", some ⟨"baz", 234, []⟩, ["burn"]⟩]
        ∧ (NewServiceIndex
            [⟨"crash", 666, "foobar", some ⟨"foobar", 12, []⟩, ["burn"]⟩,
              ⟨"crash", 666, "baz", some ⟨"baz", 234, []⟩, ["burn"]⟩]).ByName "crash" "" =
          some ⟨"crash", 666, "foobar", some ⟨"foobar", 12, []⟩, ["burn"]⟩
        ∧ (NewServiceIndex
            [⟨"crash", 666, "foobar", some ⟨"foobar", 12, []⟩, ["burn"]⟩,
              ⟨"crash", 666, "baz", some ⟨"baz", 234, []⟩, ["burn"]⟩]).ByName "crash" "baz" =
          some ⟨"crash", 666, "baz", some ⟨"baz", 234, []⟩, ["burn"]⟩) := by
  refine ⟨fun i s ss => rfl, fun i s => ?_, by decide, by decide, by decide⟩
  exact ⟨ServiceIndex.mergeOne_ByName_comp i s,
    fun a ha => ServiceIndex.mergeOne_ByName_alias_comp i s a ha,
    ServiceIndex.mergeOne_ByPort_comp i s,
    fun hp => ⟨ServiceIndex.mergeOne_ByName_agnostic i s hp,
      fun a ha => ServiceIndex.mergeOne_ByName_alias_agnostic i s hp a ha,
      ServiceIndex.mergeOne_ByPort_agnostic i s hp⟩⟩

/-- Claim C1 witness: instantiating the first-write-wins step at a
concrete record over an empty index. -/
theorem claim_C1_witness :
    ((NewServiceIndex []).Merge [⟨"svc", 7, "tcp", none, ["alt"]⟩]).ByName "alt" "" =
      some ⟨"svc", 7, "tcp", none, ["alt"]⟩ := by
  have h := claim_C1.2.1 (NewServiceIndex []) ⟨"svc", 7, "tcp", none, ["alt"]⟩
  have h2 := (h.2.2.2 (by decide)).2.1 "alt" (by decide)
  rw [h2]
  decide

/-- Claim C2: if any line of the stream has, after comment stripping and
whitespace splitting, at least two tokens with a second token that does
not parse as an unsigned 8-bit base-10 integer (for `ParseProtocols`)
respectively an unsigned 16-bit base-16 integer (for `ParseEtherTypes`),
the whole call returns an error and no records at all — records from
earlier lines are discarded, never returned as a partial list. -/
theorem claim_C2 (r : InStream) :
    (r.lines.any protoNumBad = true → ParseProtocols r = none)
    ∧ (r.lines.any etherNumBad = true → ParseEtherTypes r = none) :=
  ⟨fun h => parseProtocolLines_any_bad r.fails r.lines h,
   fun h => parseEtherTypeLines_any_bad r.fails r.lines h⟩

/-- Claim C2 witness: a well-formed first line followed by a numerically
malformed line makes both parsers drop everything and fail. -/
theorem claim_C2_witness :
    ParseProtocols ⟨["tcp 6", "foobar 666"], false⟩ = none
    ∧ ParseEtherTypes ⟨["IPv4 0800", "foobar 666x"], false⟩ = none :=
  ⟨(claim_C2 ⟨["tcp 6", "foobar 666"], false⟩).1 (by decide),
   (claim_C2 ⟨["IPv4 0800", "foobar 666x"], false⟩).2 (by decide)⟩

/-- Claim C3 counterexample: the claim demands that a line whose second
token does not split on "/" into two NON-EMPTY parts yields no record, for
every supplied protocol index. But the code only checks the part count:
with a protocol index that happens to contain the empty name key, the line
"crash 666/" (second token splitting into "666" and "") yields a record. -/
theorem claim_C3_counterexample :
    splitSlash "666/".data = [['6', '6', '6'], []]
    ∧ ParseServices ⟨["crash 666/"], false⟩ (NewProtocolIndex [⟨"", 7, []⟩]) =
        some [⟨"crash", 666, "", some ⟨"", 7, []⟩, []⟩] := by
  decide

/-- Claim C3 (amended): for an error-free stream, `ParseServices` never
fails because of line content: it returns exactly the records of the
well-formed lines, and any line whose second token does not split on "/"
into exactly two parts, or whose port part does not parse as an unsigned
16-bit base-10 integer, or whose protocol part is not a name key of the
supplied protocol index, yields no record and no error — the line is
skipped and parsing continues. -/
theorem claim_C3 :
    (∀ (p : ProtocolIndex) (lines : List String),
        ParseServices ⟨lines, false⟩ p = some (lines.filterMap (serviceLine p)))
    ∧ (∀ (p : ProtocolIndex) (line name tok : String) (al : List String),
        lineFields line = name :: tok :: al →
        ((splitSlash tok.data).length ≠ 2 ∨
          ∀ a b, splitSlash tok.data = [a, b] →
            parseUint 10 16 a = none ∨ p.Names.find (String.mk b) = none) →
        serviceLine p line = none) :=
  ⟨fun p lines => parseServiceLines_eq_filterMap p lines,
   fun p line name tok al hf hbad => serviceLine_skip p line name tok al hf hbad⟩

/-- Claim C3 witness: a line whose second token splits into three parts is
skipped, and a stream of only such lines parses to no records without
error. -/
theorem claim_C3_witness :
    serviceLine (NewProtocolIndex [⟨"tcp", 6, []⟩]) "crash 1/2/3 burn" = none :=
  claim_C3.2 (NewProtocolIndex [⟨"tcp", 6, []⟩]) "crash 1/2/3 burn" "crash" "1/2/3" ["burn"]
    (by decide) (Or.inl (by decide))

/-- Claim C4: `MergeIndex` copies every name-key and numeric-key (or
port-key) entry of the argument index into the receiver, overwriting
unconditionally on collision — no first-wins exception, not even for the
protocol-less service keys; consequently merging any index into a freshly
created empty index leaves exactly the argument's key sets, each key bound
to the same record. -/
theorem claim_C4 :
    (∀ (b a : ServiceIndex) (k : ServiceProtocol),
        (b.MergeIndex a).Names.find k =
          Option.or (a.Names.find k) (b.Names.find k))
    ∧ (∀ (b a : ServiceIndex) (k : ServicePort),
        (b.MergeIndex a).Ports.find k =
          Option.or (a.Ports.find k) (b.Ports.find k))
    ∧ (∀ (b a : ProtocolIndex) (k : String),
        (b.MergeIndex a).Names.find k =
          Option.or (a.Names.find k) (b.Names.find k))
    ∧ (∀ (b a : ProtocolIndex) (k : Nat),
        (b.MergeIndex a).Numbers.find k =
          Option.or (a.Numbers.find k) (b.Numbers.find k))
    ∧ (∀ (b a : EtherTypeIndex) (k : String),
        (b.MergeIndex a).Names.find k =
          Option.or (a.Names.find k) (b.Names.find k))
    ∧ (∀ (b a : EtherTypeIndex) (k : Nat),
        (b.MergeIndex a).Numbers.find k =
          Option.or (a.Numbers.find k) (b.Numbers.find k))
    ∧ (∀ (a : ServiceIndex) (k : ServiceProtocol),
        ((NewServiceIndex []).MergeIndex a).Names.find k = a.Names.find k)
    ∧ (∀ (a : ServiceIndex) (k : ServicePort),
        ((NewServiceIndex []).MergeIndex a).Ports.find k = a.Ports.find k)
    ∧ (∀ (a : ProtocolIndex) (k : String),
        ((NewProtocolIndex []).MergeIndex a).Names.find k = a.Names.find k)
    ∧ (∀ (a : ProtocolIndex) (k : Nat),
        ((NewProtocolIndex []).MergeIndex a).Numbers.find k = a.Numbers.find k)
    ∧ (∀ (a : EtherTypeIndex) (k : String),
        ((NewEtherTypeIndex []).MergeIndex a).Names.find k = a.Names.find k)
    ∧ (∀ (a : EtherTypeIndex) (k : Nat),
        ((NewEtherTypeIndex []).MergeIndex a).Numbers.find k = a.Numbers.find k) :=
  ⟨fun b a k => GoMap.find_mergeFrom b.Names a.Names k,
   fun b a k => GoMap.find_mergeFrom b.Ports a.Ports k,
   fun b a k => GoMap.find_mergeFrom b.Names a.Names k,
   fun b a k => GoMap.find_mergeFrom b.Numbers a.Numbers k,
   fun b a k => GoMap.find_mergeFrom b.Names a.Names k,
   fun b a k => GoMap.find_mergeFrom b.Numbers a.Numbers k,
   fun a k => GoMap.find_mergeFrom_empty a.Names k,
   fun a k => GoMap.find_mergeFrom_empty a.Ports k,
   fun a k => GoMap.find_mergeFrom_empty a.Names k,
   fun a k => GoMap.find_mergeFrom_empty a.Numbers k,
   fun a k => GoMap.find_mergeFrom_empty a.Names k,
   fun a k => GoMap.find_mergeFrom_empty a.Numbers k⟩

/-- Claim C5: `ProtocolIndex.Merge` and `EtherTypeIndex.Merge` process
records in input order and register each record under its canonical name,
under every alias and under its number, overwriting any colliding earlier
entry unconditionally (last write wins on name keys and numeric keys
alike). -/
theorem claim_C5 :
    (∀ (i : ProtocolIndex) (p : Protocol) (ps : List Protocol),
        i.Merge (p :: ps) = (i.Merge [p]).Merge ps)
    ∧ (∀ (i : ProtocolIndex) (p : Protocol) (x : String),
        (i.Merge [p]).Names.find x =
          if x = p.Name ∨ x ∈ p.Aliases then some p else i.Names.find x)
    ∧ (∀ (i : ProtocolIndex) (p : Protocol) (m : Nat),
        (i.Merge [p]).Numbers.find m =
          if m = p.Number then some p else i.Numbers.find m)
    ∧ (∀ (i : EtherTypeIndex) (t : EtherType) (ts : List EtherType),
        i.Merge (t :: ts) = (i.Merge [t]).Merge ts)
    ∧ (∀ (i : EtherTypeIndex) (t : EtherType) (x : String),
        (i.Merge [t]).Names.find x =
          if x = t.Name ∨ x ∈ t.Aliases then some t else i.Names.find x)
    ∧ (∀ (i : EtherTypeIndex) (t : EtherType) (m : Nat),
        (i.Merge [t]).Numbers.find m =
          if m = t.Number then some t else i.Numbers.find m) :=
  ⟨fun _ _ _ => rfl,
   fun i p x => ProtocolIndex.mergeOne_Names i p x,
   fun i p m => ProtocolIndex.mergeOne_Numbers i p m,
   fun _ _ _ => rfl,
   fun i t x => EtherTypeIndex.etherMergeOne_Names i t x,
   fun i t m => EtherTypeIndex.etherMergeOne_Numbers i t m⟩

/-- Claim C6: `ParseEtherTypes` reads the numeric token in base 16 while
`ParseProtocols` and `ParseServices` read theirs in base 10: the line
"test 9000" parses as an EtherType with number 0x9000 = 36864, the same
digits in a services line give port 9000 (decimal), and in a protocols
line they are read as decimal 9000, which exceeds 8 bits and aborts the
parse ("test 90" shows the decimal reading: 90, not 0x90 = 144). -/
theorem claim_C6 :
    ParseEtherTypes ⟨["test 9000"], false⟩ = some [⟨"test", 36864, [], ""⟩]
    ∧ ParseServices ⟨["test 9000/tcp"], false⟩ (NewProtocolIndex [⟨"tcp", 6, []⟩]) =
        some [⟨"test", 9000, "tcp", some ⟨"tcp", 6, []⟩, []⟩]
    ∧ ParseProtocols ⟨["test 9000"], false⟩ = none
    ∧ ParseProtocols ⟨["test 90"], false⟩ = some [⟨"test", 90, []⟩]
    ∧ ParseEtherTypes ⟨["test 90"], false⟩ = some [⟨"test", 144, [], ""⟩] := by
  decide

/-- Claim C7: each package-level lookup first checks whether the
process-wide index is uninitialized (a nil map); if so it rebuilds it from
the builtin record list and answers like a lookup on a freshly built
builtin index, and otherwise it uses the caller's index unchanged, without
reinitializing it. The builtin tables are generated data outside the
analysed sources and are passed as a parameter. -/
theorem claim_C7 :
    (∀ (bp : List Protocol) (g : ProtocolIndex) (name : String),
        (g.Numbers.isNil = true →
          ProtocolByName bp g name =
            (NewProtocolIndex bp, (NewProtocolIndex bp).Names.find name))
        ∧ (g.Numbers.isNil = false →
          ProtocolByName bp g name = (g, g.Names.find name)))
    ∧ (∀ (bp : List Protocol) (g : ProtocolIndex) (number : Nat),
        (g.Numbers.isNil = true →
          ProtocolByNumber bp g number =
            (NewProtocolIndex bp, (NewProtocolIndex bp).Numbers.find number))
        ∧ (g.Numbers.isNil = false →
          ProtocolByNumber bp g number = (g, g.Numbers.find number)))
    ∧ (∀ (bs : List Service) (g : ServiceIndex) (name protocol : String),
        (g.Names.isNil = true →
          ServiceByName bs g name protocol =
            (NewServiceIndex bs, (NewServiceIndex bs).ByName name protocol))
        ∧ (g.Names.isNil = false →
          ServiceByName bs g name protocol = (g, g.ByName name protocol)))
    ∧ (∀ (bs : List Service) (g : ServiceIndex) (port : Int) (protocol : String),
        (g.Names.isNil = true →
          ServiceByPort bs g port protocol =
            (NewServiceIndex bs, (NewServiceIndex bs).ByPort port protocol))
        ∧ (g.Names.isNil = false →
          ServiceByPort bs g port protocol = (g, g.ByPort port protocol)))
    ∧ (∀ (bt : List EtherType) (g : EtherTypeIndex) (name : String),
        (g.Numbers.isNil = true →
          EtherTypeByName bt g name =
            (NewEtherTypeIndex bt, (NewEtherTypeIndex bt).Names.find name))
        ∧ (g.Numbers.isNil = false →
          EtherTypeByName bt g name = (g, g.Names.find name)))
    ∧ (∀ (bt : List EtherType) (g : EtherTypeIndex) (number : Nat),
        (g.Numbers.isNil = true →
          EtherTypeByNumber bt g number =
            (NewEtherTypeIndex bt, (NewEtherTypeIndex bt).Numbers.find number))
        ∧ (g.Numbers.isNil = false →
          EtherTypeByNumber bt g number = (g, g.Numbers.find number))) :=
  ⟨fun bp g name =>
      ⟨fun h => by simp [ProtocolByName, h], fun h => by simp [ProtocolByName, h]⟩,
   fun bp g number =>
      ⟨fun h => by simp [ProtocolByNumber, h], fun h => by simp [ProtocolByNumber, h]⟩,
   fun bs g name protocol =>
      ⟨fun h => by simp [ServiceByName, h], fun h => by simp [ServiceByName, h]⟩,
   fun bs g port protocol =>
      ⟨fun h => by simp [ServiceByPort, h], fun h => by simp [ServiceByPort, h]⟩,
   fun bt g name =>
      ⟨fun h => by simp [EtherTypeByName, h], fun h => by simp [EtherTypeByName, h]⟩,
   fun bt g number =>
      ⟨fun h => by simp [EtherTypeByNumber, h], fun h => by simp [EtherTypeByNumber, h]⟩⟩

/-- Claim C7 witness: a lookup on the nil (zero-value) protocol index
rebuilds the builtin index, while a lookup on a pre-populated index leaves
it untouched. -/
theorem claim_C7_witness :
    ProtocolByName [⟨"tcp", 6, []⟩] ⟨GoMap.nil, GoMap.nil⟩ "tcp" =
      (NewProtocolIndex [⟨"tcp", 6, []⟩],
        (NewProtocolIndex [⟨"tcp", 6, []⟩]).Names.find "tcp")
    ∧ ProtocolByName [⟨"tcp", 6, []⟩] (NewProtocolIndex [⟨"udp", 17, []⟩]) "udp" =
      (NewProtocolIndex [⟨"udp", 17, []⟩],
        (NewProtocolIndex [⟨"udp", 17, []⟩]).Names.find "udp") :=
  ⟨(claim_C7.1 [⟨"tcp", 6, []⟩] ⟨GoMap.nil, GoMap.nil⟩ "tcp").1 (by decide),
   (claim_C7.1 [⟨"tcp", 6, []⟩] (NewProtocolIndex [⟨"udp", 17, []⟩]) "udp").2 (by decide)⟩

/-- Claim C8: every record returned by `ParseServices` carries a resolved
protocol reference: its `Protocol` field is non-nil and is exactly the
entry of the supplied protocol index under the record's `ProtocolName`
(the protocol token stored verbatim); a service whose protocol token is
absent from the index never appears in the result. -/
theorem claim_C8 (p : ProtocolIndex) (r : InStream) (ss : List Service)
    (hp : ParseServices r p = some ss) :
    ∀ s ∈ ss, ∃ pr, s.Protocol = some pr ∧ p.Names.find s.ProtocolName = some pr :=
  parseServiceLines_resolved p r.fails r.lines ss hp

/-- Claim C8 witness: the record parsed from "crash 666/tcp" resolves its
protocol against the supplied index. -/
theorem claim_C8_witness :
    ∃ pr, (⟨"crash", 666, "tcp", some ⟨"tcp", 6, []⟩, []⟩ : Service).Protocol = some pr
      ∧ (NewProtocolIndex [⟨"tcp", 6, []⟩]).Names.find
          (⟨"crash", 666, "tcp", some ⟨"tcp", 6, []⟩, []⟩ : Service).ProtocolName = some pr :=
  claim_C8 (NewProtocolIndex [⟨"tcp", 6, []⟩]) ⟨["crash 666/tcp"], false⟩
    [⟨"crash", 666, "tcp", some ⟨"tcp", 6, []⟩, []⟩] (by decide)
    ⟨"crash", 666, "tcp", some ⟨"tcp", 6, []⟩, []⟩ (by decide)

/-- Claim C9: for an ethertypes line that yields a record,
`ParseEtherTypes` stores the (trimmed) text after the line's first '#' in
the record's `Comment` field, and stores the empty comment when the line
holds no '#'; `ParseProtocols` and `ParseServices`, in contrast, discard
everything from the first '#' onward — their result does not change when
the text after '#' is removed. -/
theorem claim_C9 :
    (∀ (e : Bool) (rest : List String) (pre c name numTok : String)
        (al : List String) (n : Nat),
        '#' ∉ pre.data →
        lineFields (pre ++ "#" ++ c) = name :: numTok :: al →
        parseUint 16 16 numTok.data = some n →
        ParseEtherTypes ⟨(pre ++ "#" ++ c) :: rest, e⟩ =
          (ParseEtherTypes ⟨rest, e⟩).map
            (fun ts => ⟨name, n, al, String.mk (trimCh c.data)⟩ :: ts))
    ∧ (∀ (e : Bool) (rest : List String) (line name numTok : String)
        (al : List String) (n : Nat),
        '#' ∉ line.data →
        lineFields line = name :: numTok :: al →
        parseUint 16 16 numTok.data = some n →
        ParseEtherTypes ⟨line :: rest, e⟩ =
          (ParseEtherTypes ⟨rest, e⟩).map (fun ts => ⟨name, n, al, ""⟩ :: ts))
    ∧ (∀ (e : Bool) (rest : List String) (pre c : String),
        '#' ∉ pre.data →
        ParseProtocols ⟨(pre ++ "#" ++ c) :: rest, e⟩ =
          ParseProtocols ⟨(pre ++ "#") :: rest, e⟩)
    ∧ (∀ (p : ProtocolIndex) (e : Bool) (rest : List String) (pre c : String),
        '#' ∉ pre.data →
        ParseServices ⟨(pre ++ "#" ++ c) :: rest, e⟩ p =
          ParseServices ⟨(pre ++ "#") :: rest, e⟩ p) :=
  ⟨fun e rest pre c name numTok al n hpre hf hn =>
      parseEtherTypeLines_comment_step e rest pre c hpre name numTok al hf n hn,
   fun e rest line name numTok al n hline hf hn =>
      parseEtherTypeLines_nocomment_step e rest line hline name numTok al hf n hn,
   fun e rest pre c hpre => parseProtocolLines_comment_irrelevant e rest pre c hpre,
   fun p e rest pre c hpre => parseServiceLines_comment_irrelevant p e rest pre c hpre⟩

/-- Claim C9 witness: a concrete commented ethertypes line keeps its
trimmed comment text. -/
theorem claim_C9_witness :
    ParseEtherTypes ⟨[("ty 0800" ++ "#" ++ " my comment ")], false⟩ =
      some [⟨"ty", 2048, [], "my comment"⟩] := by
  have h := claim_C9.1 false [] "ty 0800" " my comment " "ty" "0800" [] 2048
    (by decide) (by decide) (by decide)
  rw [h]
  decide

/-- Claim C10: whenever a loader fails — the file cannot be opened, or the
parse returns an error — it returns, along with the error, a fully
initialized empty index: both maps are allocated (not the nil maps of a
zero-value index), contain no entries, and every lookup on them yields the
not-found result. -/
theorem claim_C10 :
    (∀ file : Option InStream, (LoadProtocols file).2 = true →
        (LoadProtocols file).1.Names = GoMap.alloc []
        ∧ (LoadProtocols file).1.Numbers = GoMap.alloc []
        ∧ (∀ name, (LoadProtocols file).1.Names.find name = none)
        ∧ (∀ number, (LoadProtocols file).1.Numbers.find number = none))
    ∧ (∀ (file : Option InStream) (protos : ProtocolIndex),
        (LoadServices file protos).2 = true →
        (LoadServices file protos).1.Names = GoMap.alloc []
        ∧ (LoadServices file protos).1.Ports = GoMap.alloc []
        ∧ (∀ key : ServiceProtocol, (LoadServices file protos).1.Names.find key = none)
        ∧ (∀ key : ServicePort, (LoadServices file protos).1.Ports.find key = none))
    ∧ (∀ file : Option InStream, (LoadEtherTypes file).2 = true →
        (LoadEtherTypes file).1.Names = GoMap.alloc []
        ∧ (LoadEtherTypes file).1.Numbers = GoMap.alloc []
        ∧ (∀ name, (LoadEtherTypes file).1.Names.find name = none)
        ∧ (∀ number, (LoadEtherTypes file).1.Numbers.find number = none)) := by
  refine ⟨fun file h => ?_, fun file protos h => ?_, fun file h => ?_⟩
  · cases file with
    | none => exact ⟨rfl, rfl, fun name => rfl, fun number => rfl⟩
    | some r =>
      cases hp : ParseProtocols r with
      | none =>
        simp only [LoadProtocols, hp]
        exact ⟨rfl, rfl, fun name => rfl, fun number => rfl⟩
      | some ps =>
        simp only [LoadProtocols, hp] at h
        exact absurd h (by decide)
  · cases file with
    | none => exact ⟨rfl, rfl, fun key => rfl, fun key => rfl⟩
    | some r =>
      cases hp : ParseServices r protos with
      | none =>
        simp only [LoadServices, hp]
        exact ⟨rfl, rfl, fun key => rfl, fun key => rfl⟩
      | some ss =>
        simp only [LoadServices, hp] at h
        exact absurd h (by decide)
  · cases file with
    | none => exact ⟨rfl, rfl, fun name => rfl, fun number => rfl⟩
    | some r =>
      cases hp : ParseEtherTypes r with
      | none =>
        simp only [LoadEtherTypes, hp]
        exact ⟨rfl, rfl, fun name => rfl, fun number => rfl⟩
      | some ts =>
        simp only [LoadEtherTypes, hp] at h
        exact absurd h (by decide)

/-- Claim C10 witness: loading from an unopenable file yields an index on
which lookups are safe and answer not-found. -/
theorem claim_C10_witness :
    (LoadProtocols none).1.Names.find "tcp" = none
    ∧ (LoadServices none (NewProtocolIndex [])).1.Names.find ⟨"domain", "udp"⟩ = none
    ∧ (LoadEtherTypes none).1.Names.find "IPv4" = none :=
  ⟨(claim_C10.1 none rfl).2.2.1 "tcp",
   (claim_C10.2.1 none (NewProtocolIndex []) rfl).2.2.1 ⟨"domain", "udp"⟩,
   (claim_C10.2.2 none rfl).2.2.1 "IPv4"⟩
